import Mathlib

/-!
Verification development for the community content platform (post service,
user service). Each definition is a shallow embedding of a function of the
JavaScript source; theorems settle the specification claims against them.

Modelling conventions:
* database tables are association lists carried explicitly through each
  operation;
* ISO timestamp strings are modelled as natural numbers (milliseconds), so
  the lexicographic/time comparisons of the source become `Nat` comparisons;
* ids (uuids) are modelled as strings;
* characters are treated as ASCII: the source lowercases with the JavaScript
  `toLowerCase` and matches the ASCII classes `[a-z0-9]`, which the embedding
  mirrors with `Char` range tests.
-/

namespace ICentral

/-- Character class `[a-z0-9]` used by the slugify regular expression in
`post-service` (`replace(/[^a-z0-9]+/g, '-')` runs after `toLowerCase`). -/
def isSlugChar (c : Char) : Bool :=
  ('a' ≤ c && c ≤ 'z') || ('0' ≤ c && c ≤ '9')

/-- Left-to-right scan of the regex `replace(/[^a-z0-9]+/g, '-')`: the flag
records whether the scanner stands inside a run of characters outside
`[a-z0-9]`; each such maximal run emits a single hyphen when it starts. -/
def collapseGo : List Char → Bool → List Char
  | [], _ => []
  | c :: rest, inRun =>
    if isSlugChar c then c :: collapseGo rest false
    else if inRun then collapseGo rest true
    else '-' :: collapseGo rest true

/-- Embedding of the regex `replace(/[^a-z0-9]+/g, '-')`: every maximal run
of characters outside `[a-z0-9]` is replaced by a single hyphen. -/
def collapseNonAlnum (l : List Char) : List Char :=
  collapseGo l false

/-- Embedding of the regex `replace(/^-+|-+$/g, '')`: drop leading and
trailing hyphens. -/
def trimHyphens (l : List Char) : List Char :=
  (l.dropWhile (fun c => c == '-')).rdropWhile (fun c => c == '-')

/-- Whitespace trim of the JavaScript `String.prototype.trim`, modelled on
the character list (ASCII whitespace). -/
def jsTrim (l : List Char) : List Char :=
  (l.dropWhile Char.isWhitespace).rdropWhile Char.isWhitespace

/-- Embedding of `slugify` from `post-service`:
`String(value).trim().toLowerCase().replace(/[^a-z0-9]+/g, '-').replace(/^-+|-+$/g, '')`. -/
def slugify (value : String) : String :=
  ⟨trimHyphens (collapseNonAlnum ((jsTrim value.data).map Char.toLower))⟩

/-- Row of the `tags` table. -/
structure Tag where
  id : String
  name : String
  slug : String
deriving DecidableEq, Repr

/-- Embedding of the tag upsert keyed on the `slug` column
(`supabase.from(tags).upsert({name, slug}, onConflict slug)`, used by both
`ensureTagsExist` and `POST /tags`): if a row with the slug exists its name
is overwritten, otherwise a fresh row is appended. -/
def upsertTagBySlug (tags : List Tag) (name : String) (newId : String) : List Tag :=
  let slug := slugify name
  if tags.any (fun t => t.slug == slug) then
    tags.map (fun t => if t.slug == slug then { t with name := name } else t)
  else
    tags ++ [{ id := newId, name := name, slug := slug }]

/-- Output alphabet of the slugifier: lowercase alphanumerics and hyphens. -/
def slugShaped (l : List Char) : Bool :=
  l.all (fun c => isSlugChar c || c == '-')

/-- Check that a character list neither starts nor ends with a hyphen. -/
def noEdgeHyphen (l : List Char) : Bool :=
  !(l.head? == some '-') && !(l.getLast? == some '-')

theorem isSlugChar_ne_hyphen {c : Char} (h : isSlugChar c = true) : (c == '-') = false := by
  cases hbeq : c == '-'
  · rfl
  · exfalso
    have hc : c = '-' := eq_of_beq hbeq
    subst hc
    exact absurd h (by decide)

theorem collapseGo_all (l : List Char) (b : Bool) :
    (collapseGo l b).all (fun c => isSlugChar c || c == '-') = true := by
  induction l generalizing b with
  | nil => rfl
  | cons c rest ih =>
    simp only [collapseGo]
    by_cases h : isSlugChar c = true
    · simp [h, ih]
    · cases b with
      | true => simpa [h] using ih true
      | false => simp [h, ih]

theorem collapseGo_head_inRun (l : List Char) :
    ∀ c, (collapseGo l true).head? = some c → isSlugChar c = true := by
  induction l with
  | nil =>
    intro c h
    simp [collapseGo] at h
  | cons a rest ih =>
    intro c h
    simp only [collapseGo] at h
    by_cases ha : isSlugChar a = true
    · simp only [ha, if_true, List.head?_cons, Option.some.injEq] at h
      exact h ▸ ha
    · simp only [ha, if_false, if_true] at h
      exact ih c h

theorem collapseGo_chain (l : List Char) (b : Bool) :
    List.Chain' (fun x y => ((x == '-') && (y == '-')) = false) (collapseGo l b) := by
  induction l generalizing b with
  | nil => simp [collapseGo]
  | cons a rest ih =>
    simp only [collapseGo]
    by_cases ha : isSlugChar a = true
    · simp only [ha, if_true]
      rw [List.chain'_cons']
      refine ⟨?_, ih false⟩
      intro y _
      simp [isSlugChar_ne_hyphen ha]
    · cases b with
      | true => simpa [ha] using ih true
      | false =>
        rw [if_neg ha, if_neg Bool.false_ne_true]
        rw [List.chain'_cons']
        refine ⟨?_, ih true⟩
        intro y hy
        have hslug := collapseGo_head_inRun rest y hy
        simp [isSlugChar_ne_hyphen hslug]

theorem head?_dropWhile_false {p : Char → Bool} :
    ∀ (l : List Char) (c : Char), (l.dropWhile p).head? = some c → p c = false := by
  intro l
  induction l with
  | nil =>
    intro c h
    simp [List.dropWhile] at h
  | cons a rest ih =>
    intro c h
    rw [List.dropWhile_cons] at h
    by_cases hp : p a = true
    · rw [if_pos hp] at h
      exact ih c h
    · rw [if_neg hp] at h
      simp only [List.head?_cons, Option.some.injEq] at h
      subst h
      simpa using hp

theorem trimHyphens_sub (l : List Char) : trimHyphens l <:+: l := by
  unfold trimHyphens
  have h1 := List.rdropWhile_prefix (fun c => c == '-') (l.dropWhile (fun c => c == '-'))
  have h2 := List.dropWhile_suffix (l := l) (fun c => c == '-')
  exact List.IsInfix.trans (List.IsPrefix.isInfix h1) (List.IsSuffix.isInfix h2)

theorem slugify_shape (s : String) :
    slugShaped (slugify s).data = true
    ∧ List.Chain' (fun x y => ((x == '-') && (y == '-')) = false) (slugify s).data
    ∧ noEdgeHyphen (slugify s).data = true := by
  have hdata : (slugify s).data
      = trimHyphens (collapseNonAlnum ((jsTrim s.data).map Char.toLower)) := rfl
  have hmid := trimHyphens_sub (collapseNonAlnum ((jsTrim s.data).map Char.toLower))
  refine ⟨?_, ?_, ?_⟩
  · rw [hdata, slugShaped, List.all_eq_true]
    intro c hc
    have hmem : c ∈ collapseNonAlnum ((jsTrim s.data).map Char.toLower) :=
      List.Sublist.subset (List.IsInfix.sublist hmid) hc
    have hall := collapseGo_all ((jsTrim s.data).map Char.toLower) false
    rw [List.all_eq_true] at hall
    exact hall c hmem
  · rw [hdata]
    exact List.Chain'.infix (collapseGo_chain _ false) hmid
  · rw [hdata, noEdgeHyphen]
    set m := (collapseNonAlnum ((jsTrim s.data).map Char.toLower)).dropWhile
      (fun c => c == '-') with hm
    have htrim : trimHyphens (collapseNonAlnum ((jsTrim s.data).map Char.toLower))
        = m.rdropWhile (fun c => c == '-') := rfl
    rw [htrim]
    cases ht : m.rdropWhile (fun c => c == '-') with
    | nil => rfl
    | cons a t =>
      have hne : m.rdropWhile (fun c => c == '-') ≠ [] := by rw [ht]; simp
      have hhead : (a == '-') = false := by
        obtain ⟨r, hr⟩ := List.rdropWhile_prefix (fun c => c == '-') m
        rw [ht] at hr
        have : m.head? = some a := by rw [← hr]; rfl
        exact head?_dropWhile_false _ a this
      have hlast : ((m.rdropWhile (fun c => c == '-')).getLast? == some '-') = false := by
        have hlastn := List.rdropWhile_last_not (fun c => c == '-') m hne
        have hx : ((m.rdropWhile (fun c => c == '-')).getLast hne == '-') = false := by
          revert hlastn
          cases (m.rdropWhile (fun c => c == '-')).getLast hne == '-' <;> simp
        rw [List.getLast?_eq_getLast _ hne]
        simpa using hx
      rw [ht] at hlast
      simp only [List.head?_cons, hlast]
      simp [hhead]

/-- C8: slugify lowercases, collapses every run of non-alphanumeric characters to
one hyphen and trims edge hyphens (expressed as: the output alphabet is lowercase
alphanumerics plus hyphen, no two hyphens are adjacent, and the output neither
starts nor ends with a hyphen, together with the concrete evaluations); upserting
a tag named Node.js and then one named Node JS, which share the slug node-js,
leaves exactly one tag row carrying the second name. -/
theorem C8_slug_collision_idempotence :
    (∀ s : String, slugShaped (slugify s).data = true
      ∧ List.Chain' (fun x y => ((x == '-') && (y == '-')) = false) (slugify s).data
      ∧ noEdgeHyphen (slugify s).data = true)
    ∧ slugify "Node.js" = "node-js"
    ∧ slugify "Node JS" = "node-js"
    ∧ upsertTagBySlug (upsertTagBySlug [] "Node.js" "t1") "Node JS" "t2"
        = [{ id := "t1", name := "Node JS", slug := "node-js" }] :=
  ⟨slugify_shape, by decide, by decide, by decide⟩

/-- Row of the `posts` table (the columns the handlers consult). The
`expires_at` timestamp is modelled as milliseconds. -/
structure Post where
  id : String
  type : String
  title : Option String
  summary : Option String
  authorId : Option String
  status : String
  pinned : Bool
  expiresAt : Option Nat
deriving DecidableEq, Repr

/-- Match condition of the bulk update in `archiveExpiredPosts`:
`.lt('expires_at', nowIso).neq('status', 'archived')`. A null `expires_at`
never satisfies the `lt` comparison. -/
def sweepMatches (now : Nat) (p : Post) : Bool :=
  (match p.expiresAt with
   | some e => decide (e < now)
   | none => false) && !(p.status == "archived")

/-- Effect of the sweep on one row: matched rows get `status = 'archived'`,
all other rows are untouched. -/
def sweepPost (now : Nat) (p : Post) : Post :=
  if sweepMatches now p then { p with status := "archived" } else p

/-- Embedding of `archiveExpiredPosts` from `post-service`: the single bulk
conditional update together with the count of updated rows
(`data?.length` of the `.select('id')` result). -/
def archiveExpiredPosts (now : Nat) (posts : List Post) : List Post × Nat :=
  (posts.map (sweepPost now), (posts.filter (sweepMatches now)).length)

/-- Status-filter branch chain of `GET /feed` (after `status` has been
trimmed and lowercased and `includeArchived` parsed):
`if (status && status !== 'all') eq(status) else if (!status && !includeArchived)
eq('published') else if (status === 'all' && !includeArchived) neq('archived')`. -/
def feedStatusFilter (status : String) (includeArchived : Bool) (p : Post) : Bool :=
  if status != "" && status != "all" then p.status == status
  else if status == "" && !includeArchived then p.status == "published"
  else if status == "all" && !includeArchived then !(p.status == "archived")
  else true

/-- Status-filtering core of `GET /feed`: the sweep runs first, then the
page query filters by status; the sweep count is surfaced as
`meta.archivedDuringRequest`. Type, author, tag, search and pagination
filters are orthogonal and omitted. -/
def feedRead (posts : List Post) (now : Nat) (status : String) (includeArchived : Bool) :
    List Post × Nat :=
  let swept := archiveExpiredPosts now posts
  (swept.1.filter (feedStatusFilter status includeArchived), swept.2)

/-- Archive shorthand of `buildPostPayload`: a truthy `archive` field forces
`status = 'archived'`, overriding any explicit `status` value in the same
request. The flag stands for the source test
`archive === true || archive === 'true' || archive === 1 || archive === '1'`. -/
def applyArchiveShorthand (statusInput : Option String) (archiveFlag : Bool) :
    Option String :=
  if archiveFlag then some "archived" else statusInput

/-- Status effect of `PATCH /posts/:id` on the targeted row: a provided
status value (after the archive shorthand) is merged into the row. -/
def patchStatus (p : Post) (statusInput : Option String) (archiveFlag : Bool) : Post :=
  match applyArchiveShorthand statusInput archiveFlag with
  | some s => { p with status := s }
  | none => p

theorem sweepMatches_iff (now : Nat) (p : Post) :
    sweepMatches now p = true
      ↔ ((∃ e, p.expiresAt = some e ∧ e < now) ∧ p.status ≠ "archived") := by
  unfold sweepMatches
  cases h : p.expiresAt with
  | none => simp [h]
  | some e => simp [h]

theorem sweepPost_of_unmatched {now : Nat} {p : Post} (h : sweepMatches now p = false) :
    sweepPost now p = p := by
  unfold sweepPost
  rw [h]
  rfl

theorem sweepMatches_archived {now : Nat} {p : Post} (h : p.status = "archived") :
    sweepMatches now p = false := by
  unfold sweepMatches
  simp [h]

theorem sweepPost_status_of_matched {now : Nat} {p : Post}
    (h : sweepMatches now p = true) : (sweepPost now p).status = "archived" := by
  unfold sweepPost
  rw [h]
  rfl

theorem sweepMatches_self_sweep (now : Nat) (p : Post) :
    sweepMatches now (sweepPost now p) = false := by
  by_cases h : sweepMatches now p = true
  · exact sweepMatches_archived (sweepPost_status_of_matched h)
  · have h' : sweepMatches now p = false := by simpa using h
    rw [sweepPost_of_unmatched h']
    exact h'

theorem sweepPost_changed_iff (now : Nat) (p : Post) :
    sweepMatches now p = true ↔ sweepPost now p ≠ p := by
  constructor
  · intro h
    have harch : p.status ≠ "archived" := ((sweepMatches_iff now p).mp h).2
    unfold sweepPost
    rw [h]
    intro heq
    exact harch (congrArg Post.status heq).symm
  · intro h
    by_contra hm
    exact h (sweepPost_of_unmatched (by simpa using hm))

/-- C3: the sweep archives exactly the posts whose expiry lies in the past and
whose status is not already archived; an archived post is excluded from the
match and untouched by any re-run; the sweep never moves a post out of
archived; rerunning the sweep touches nothing and reports zero; the returned
count is the number of rows the sweep changed, and the feed read surfaces it
as its metadata. -/
theorem C3_sweep_archives_exactly_expired (now now2 : Nat) (posts : List Post)
    (p : Post) (st : String) (ia : Bool) :
    (sweepMatches now p = true
      ↔ ((∃ e, p.expiresAt = some e ∧ e < now) ∧ p.status ≠ "archived"))
    ∧ (sweepMatches now p = false → sweepPost now p = p)
    ∧ (p.status = "archived" → sweepPost now2 p = p)
    ∧ ((sweepPost now p).status = "archived"
        → sweepPost now2 (sweepPost now p) = sweepPost now p)
    ∧ archiveExpiredPosts now ((archiveExpiredPosts now posts).1)
        = ((archiveExpiredPosts now posts).1, 0)
    ∧ (archiveExpiredPosts now posts).2
        = (posts.filter (fun q => decide (sweepPost now q ≠ q))).length
    ∧ (feedRead posts now st ia).2 = (archiveExpiredPosts now posts).2 := by
  refine ⟨sweepMatches_iff now p, sweepPost_of_unmatched, ?_, ?_, ?_, ?_, rfl⟩
  · intro h
    exact sweepPost_of_unmatched (sweepMatches_archived h)
  · intro h
    exact sweepPost_of_unmatched (sweepMatches_archived h)
  · show ((posts.map (sweepPost now)).map (sweepPost now),
        ((posts.map (sweepPost now)).filter (sweepMatches now)).length)
      = (posts.map (sweepPost now), 0)
    rw [Prod.mk.injEq]
    refine ⟨?_, ?_⟩
    · rw [List.map_map]
      apply List.map_congr_left
      intro q _
      show sweepPost now (sweepPost now q) = sweepPost now q
      exact sweepPost_of_unmatched (sweepMatches_self_sweep now q)
    · rw [List.length_eq_zero, List.filter_eq_nil_iff]
      intro q hq
      rw [List.mem_map] at hq
      obtain ⟨r, _, hr⟩ := hq
      subst hr
      simp [sweepMatches_self_sweep now r]
  · show (posts.filter (sweepMatches now)).length
      = (posts.filter (fun q => decide (sweepPost now q ≠ q))).length
    congr 1
    apply List.filter_congr
    intro q _
    by_cases hm : sweepMatches now q = true
    · rw [hm]
      exact (decide_eq_true ((sweepPost_changed_iff now q).mp hm)).symm
    · have hm' : sweepMatches now q = false := by simpa using hm
      rw [hm']
      have hq : sweepPost now q = q := sweepPost_of_unmatched hm'
      simp [hq]

/-- Sample archived post used by concrete witnesses. -/
def samplePostArchived : Post :=
  { id := "a", type := "EVENT", title := none, summary := none,
    authorId := none, status := "archived", pinned := false, expiresAt := some 5 }

/-- Sample published, unexpired post used by concrete witnesses. -/
def samplePostFresh : Post :=
  { id := "b", type := "EVENT", title := none, summary := none,
    authorId := none, status := "published", pinned := false, expiresAt := some 99 }

/-- Closed witness for C3 at concrete posts: an archived row is untouched by
the sweep and an unexpired row is untouched. -/
theorem C3_sweep_witness :
    sweepPost 50 samplePostArchived = samplePostArchived
    ∧ sweepPost 50 samplePostFresh = samplePostFresh :=
  ⟨(C3_sweep_archives_exactly_expired 50 50 [] samplePostArchived "" false).2.2.1 rfl,
   (C3_sweep_archives_exactly_expired 50 50 [] samplePostFresh "" false).2.1 (by decide)⟩

/-- C4 counterexample: a page holding one archived post queried with
`status=all` and `includeArchived` unset comes back empty, because the
`status === 'all' && !includeArchived` branch filters `neq('status','archived')`;
the claim says the archived post appears in `GET /feed?status=all` even when
`includeArchived` is not set. -/
theorem C4_counterexample :
    feedRead [samplePostArchived] 0 "all" false = ([], 0) := by decide

/-- C4 amended: after `PATCH {archive:true}` the post status is archived (the
shorthand overrides any explicit status in the same request); the post fails
the default published filter of `GET /feed`; with `status=all` alone it is
still excluded; it passes the filter with `status=all` plus
`includeArchived=true`, or with an explicit `status=archived`. -/
theorem C4_archive_feed_visibility (p : Post) (statusInput : Option String) :
    (patchStatus p statusInput true).status = "archived"
    ∧ (p.status = "archived" →
        feedStatusFilter "" false p = false
        ∧ feedStatusFilter "all" false p = false
        ∧ feedStatusFilter "all" true p = true
        ∧ feedStatusFilter "archived" false p = true) := by
  refine ⟨rfl, fun h => ⟨?_, ?_, ?_, ?_⟩⟩ <;>
    (unfold feedStatusFilter; rw [h]; decide)

/-- Closed witness for C4 at concrete inputs: the archive shorthand forces
status archived over an explicit `status:"published"`, and a concrete archived
post is excluded from the default feed but visible with
`status=all&includeArchived=true`. -/
theorem C4_archive_feed_visibility_witness :
    (patchStatus samplePostFresh (some "published") true).status = "archived"
    ∧ feedStatusFilter "" false samplePostArchived = false
    ∧ feedStatusFilter "all" false samplePostArchived = false
    ∧ feedStatusFilter "all" true samplePostArchived = true
    ∧ feedStatusFilter "archived" false samplePostArchived = true :=
  ⟨(C4_archive_feed_visibility samplePostFresh (some "published")).1,
   ((C4_archive_feed_visibility samplePostArchived none).2 rfl).1,
   ((C4_archive_feed_visibility samplePostArchived none).2 rfl).2.1,
   ((C4_archive_feed_visibility samplePostArchived none).2 rfl).2.2.1,
   ((C4_archive_feed_visibility samplePostArchived none).2 rfl).2.2.2⟩

/-- C10: with `includeArchived=true` and no `status` query parameter, none of
the three status branches applies, so no status filter is added and the page
is exactly the swept post list — posts of every status are returned; the
published-only default is the branch taken when status is empty and
`includeArchived` is false. -/
theorem C10_includeArchived_returns_all_statuses (p : Post) (posts : List Post) (now : Nat) :
    feedStatusFilter "" true p = true
    ∧ (feedRead posts now "" true).1 = (archiveExpiredPosts now posts).1
    ∧ feedStatusFilter "" false p = (p.status == "published") := by
  refine ⟨rfl, ?_, rfl⟩
  show ((archiveExpiredPosts now posts).1.filter (feedStatusFilter "" true))
      = (archiveExpiredPosts now posts).1
  exact List.filter_eq_self.mpr (fun a _ => rfl)

/-- Row of the `post_votes` table; `vote` holds `+1` or `-1`. -/
structure VoteRow where
  postId : String
  userId : String
  vote : Int
deriving DecidableEq, Repr

/-- Compound uniqueness key of `post_votes`. -/
def voteKey (r : VoteRow) : String × String := (r.postId, r.userId)

/-- Conflict resolution of the vote upsert: a row matching the
(post,user) key gets the new value, any other row is untouched. -/
def setVoteRow (p u : String) (v : Int) (r : VoteRow) : VoteRow :=
  if r.postId == p && r.userId == u then { r with vote := v } else r

/-- Embedding of the vote upsert
(`upsert({post_id, user_id, vote}, onConflict post_id,user_id)`): an existing
row for the key is overwritten, otherwise a fresh row is appended. -/
def upsertVote (store : List VoteRow) (p u : String) (v : Int) : List VoteRow :=
  if store.any (fun r => r.postId == p && r.userId == u) then
    store.map (setVoteRow p u v)
  else
    store ++ [{ postId := p, userId := u, vote := v }]

/-- Embedding of the vote delete
(`delete().eq('post_id', postId).eq('user_id', userId)`). -/
def deleteVote (store : List VoteRow) (p u : String) : List VoteRow :=
  store.filter (fun r => !(r.postId == p && r.userId == u))

/-- Embedding of `normalizeText` from `post-service`: trim a string value. -/
def normalizeText (s : String) : String :=
  ⟨jsTrim s.data⟩

/-- Embedding of `parseVoteInput` from `post-service`. -/
def parseVoteInput (value : Option String) : Except String Int :=
  match value with
  | none => Except.error "vote is required"
  | some s =>
    if s == "" then Except.error "vote is required"
    else
      let n : String := ⟨(jsTrim s.data).map Char.toLower⟩
      if n == "1" || n == "up" || n == "upvote" || n == "true" then Except.ok 1
      else if n == "-1" || n == "down" || n == "downvote" then Except.ok (-1)
      else if n == "0" || n == "none" || n == "clear" || n == "neutral"
          || n == "remove" || n == "false" then Except.ok 0
      else Except.error "vote must be one of: up, down, none"

/-- Clamp of `getVoteSummaryByPostIds`: a stored value other than `+1` or
`-1` counts as zero. -/
def safeVote (v : Int) : Int :=
  if v = 1 then 1 else if v = -1 then -1 else 0

/-- Per-post aggregate produced by `getVoteSummaryByPostIds`. -/
structure VoteSummary where
  score : Int
  upvoteCount : Int
  downvoteCount : Int
  userVote : Option String
deriving DecidableEq, Repr

/-- Accumulator start of `getVoteSummaryByPostIds`. -/
def emptyVoteSummary : VoteSummary :=
  { score := 0, upvoteCount := 0, downvoteCount := 0, userVote := none }

/-- Fold step of `getVoteSummaryByPostIds` over one vote row. -/
def voteSummaryStep (requestUserId : Option String) (acc : VoteSummary)
    (r : VoteRow) : VoteSummary :=
  let sv := safeVote r.vote
  { score := acc.score + sv
    upvoteCount := acc.upvoteCount + (if sv = 1 then 1 else 0)
    downvoteCount := acc.downvoteCount + (if sv = -1 then 1 else 0)
    userVote :=
      match requestUserId with
      | some uid =>
        if r.userId == uid then
          (if sv = 1 then some "up" else if sv = -1 then some "down" else none)
        else acc.userVote
      | none => acc.userVote }

/-- Embedding of `getVoteSummaryByPostIds` restricted to one post: the
aggregate is recomputed by scanning that post's vote rows in order. -/
def getVoteSummary (store : List VoteRow) (p : String)
    (requestUserId : Option String) : VoteSummary :=
  (store.filter (fun r => r.postId == p)).foldl
    (voteSummaryStep requestUserId) emptyVoteSummary

/-- Error taxonomy relevant to the vote and comment handlers. -/
inductive ApiError where
  | validation (msg : String)
  | notFound
deriving DecidableEq, Repr

/-- Result of the vote handler: the possible error and the vote store after
the request. -/
structure VoteOutcome where
  error : Option ApiError
  votes : List VoteRow
deriving DecidableEq, Repr

/-- Embedding of `POST /posts/:id/vote` (after authentication): normalize the
post id, parse the vote, look the post up, reject archived posts, then delete
(`none`) or upsert (`up`/`down`). -/
def voteHandler (posts : List Post) (votes : List VoteRow) (postId userId : String)
    (voteBody : Option String) : VoteOutcome :=
  if normalizeText postId == "" then
    { error := some (ApiError.validation "post id is required"), votes := votes }
  else
    match parseVoteInput voteBody with
    | Except.error e => { error := some (ApiError.validation e), votes := votes }
    | Except.ok v =>
      match posts.find? (fun q => q.id == normalizeText postId) with
      | none => { error := some ApiError.notFound, votes := votes }
      | some post =>
        if (⟨post.status.data.map Char.toLower⟩ : String) == "archived" then
          { error := some (ApiError.validation "Archived posts cannot be voted on."),
            votes := votes }
        else if v == 0 then
          { error := none, votes := deleteVote votes (normalizeText postId) userId }
        else
          { error := none, votes := upsertVote votes (normalizeText postId) userId v }

/-- Row of the `post_comments` table. -/
structure CommentRow where
  id : String
  postId : String
  authorId : String
  content : String
deriving DecidableEq, Repr

/-- Embedding of `parseCommentInput`: trimmed content together with the
validation complaints (empty or longer than 5000 characters). -/
def parseCommentInput (content : String) : String × List String :=
  let c : String := ⟨jsTrim content.data⟩
  (c,
    if c == "" then ["content is required"]
    else if 5000 < c.data.length then ["content is too long"]
    else [])

/-- Result of the comment handler: the possible error and the comment store
after the request. -/
structure CommentOutcome where
  error : Option ApiError
  comments : List CommentRow
deriving DecidableEq, Repr

/-- Embedding of `POST /posts/:id/comments` (after authentication): normalize
the post id, validate the content, look the post up, reject archived posts,
then insert the comment row. -/
def commentHandler (posts : List Post) (comments : List CommentRow)
    (postId userId content newId : String) : CommentOutcome :=
  if normalizeText postId == "" then
    { error := some (ApiError.validation "post id is required"), comments := comments }
  else
    if (parseCommentInput content).2.isEmpty then
      match posts.find? (fun q => q.id == normalizeText postId) with
      | none => { error := some ApiError.notFound, comments := comments }
      | some post =>
        if (⟨post.status.data.map Char.toLower⟩ : String) == "archived" then
          { error := some (ApiError.validation "Archived posts cannot be commented on."),
            comments := comments }
        else
          { error := none,
            comments := comments
              ++ [{ id := newId, postId := normalizeText postId, authorId := userId,
                    content := (parseCommentInput content).1 }] }
    else
      { error := some (ApiError.validation "Validation failed"), comments := comments }

/-- C7: on an archived post both the vote and the comment endpoint answer with
a validation error and leave their stores untouched; on an unknown post id
both answer NotFound before any write. The hypotheses fix a well-formed
request: the post id carries no surrounding whitespace and is non-empty, the
vote body parses, and the comment content passes validation. -/
theorem C7_archived_and_missing_guards (posts : List Post) (votes : List VoteRow)
    (comments : List CommentRow) (post : Post)
    (postId userId content newId : String) (voteBody : Option String) (v : Int)
    (hpid : jsTrim postId.data = postId.data)
    (hne : postId ≠ "")
    (hv : parseVoteInput voteBody = Except.ok v)
    (hc : (parseCommentInput content).2 = []) :
    (posts.find? (fun q => q.id == postId) = some post → post.status = "archived" →
      voteHandler posts votes postId userId voteBody
        = { error := some (ApiError.validation "Archived posts cannot be voted on."),
            votes := votes }
      ∧ commentHandler posts comments postId userId content newId
        = { error := some (ApiError.validation "Archived posts cannot be commented on."),
            comments := comments })
    ∧ (posts.find? (fun q => q.id == postId) = none →
      voteHandler posts votes postId userId voteBody
        = { error := some ApiError.notFound, votes := votes }
      ∧ commentHandler posts comments postId userId content newId
        = { error := some ApiError.notFound, comments := comments }) := by
  have hpid' : normalizeText postId = postId := by
    unfold normalizeText
    rw [hpid]
  have hne' : (postId == "") = false := by
    cases hb : postId == ""
    · rfl
    · exact absurd (eq_of_beq hb) hne
  constructor
  · intro hfind harch
    have harch' : ((⟨post.status.data.map Char.toLower⟩ : String) == "archived") = true := by
      rw [harch]
      decide
    constructor
    · unfold voteHandler
      rw [hpid']
      simp [hne', hv, hfind, harch']
    · unfold commentHandler
      rw [hpid']
      simp [hne', hc, hfind, harch']
  · intro hfind
    constructor
    · unfold voteHandler
      rw [hpid']
      simp [hne', hv, hfind]
    · unfold commentHandler
      rw [hpid']
      simp [hne', hc, hfind]

/-- Closed witness for C7: concrete archived-post and unknown-post requests. -/
theorem C7_archived_and_missing_guards_witness :
    (voteHandler [samplePostArchived] [] "a" "u" (some "up")
      = { error := some (ApiError.validation "Archived posts cannot be voted on."),
          votes := [] }
    ∧ commentHandler [samplePostArchived] [] "a" "u" "hello" "c1"
      = { error := some (ApiError.validation "Archived posts cannot be commented on."),
          comments := [] })
    ∧ (voteHandler [samplePostArchived] [] "zz" "u" (some "up")
      = { error := some ApiError.notFound, votes := [] }
    ∧ commentHandler [samplePostArchived] [] "zz" "u" "hello" "c1"
      = { error := some ApiError.notFound, comments := [] }) :=
  ⟨(C7_archived_and_missing_guards [samplePostArchived] [] [] samplePostArchived
      "a" "u" "hello" "c1" (some "up") 1 (by decide) (by decide) rfl rfl).1
      (by decide) rfl,
   (C7_archived_and_missing_guards [samplePostArchived] [] [] samplePostArchived
      "zz" "u" "hello" "c1" (some "up") 1 (by decide) (by decide) rfl rfl).2
      (by decide)⟩

/-- Value the store holds for a (post,user) key, zero when no row exists;
matches the "absence of a row means no vote" reading of the ledger. -/
def currentVote (store : List VoteRow) (p u : String) : Int :=
  match store.find? (fun r => r.postId == p && r.userId == u) with
  | some r => r.vote
  | none => 0

/-- Uniqueness of the (post,user) key across the vote store: the compound
unique constraint of `post_votes`. -/
def VoteKeysUnique (store : List VoteRow) : Prop :=
  store.Pairwise (fun a b => voteKey a ≠ voteKey b)

theorem setVoteRow_postId (p u : String) (v : Int) (r : VoteRow) :
    (setVoteRow p u v r).postId = r.postId := by
  unfold setVoteRow
  by_cases h : (r.postId == p && r.userId == u) = true
  · rw [if_pos h]
  · rw [if_neg h]

theorem setVoteRow_userId (p u : String) (v : Int) (r : VoteRow) :
    (setVoteRow p u v r).userId = r.userId := by
  unfold setVoteRow
  by_cases h : (r.postId == p && r.userId == u) = true
  · rw [if_pos h]
  · rw [if_neg h]

theorem setVoteRow_key (p u : String) (v : Int) (r : VoteRow) :
    voteKey (setVoteRow p u v r) = voteKey r := by
  unfold voteKey
  rw [setVoteRow_postId, setVoteRow_userId]

theorem setVoteRow_cond (p u : String) (v : Int) (r : VoteRow) :
    ((setVoteRow p u v r).postId == p && (setVoteRow p u v r).userId == u)
      = (r.postId == p && r.userId == u) := by
  rw [setVoteRow_postId, setVoteRow_userId]

theorem setVoteRow_idem (p u : String) (v : Int) (r : VoteRow) :
    setVoteRow p u v (setVoteRow p u v r) = setVoteRow p u v r := by
  unfold setVoteRow
  by_cases h : (r.postId == p && r.userId == u) = true
  · rw [if_pos h]
    have h2 : (({ r with vote := v } : VoteRow).postId == p
        && ({ r with vote := v } : VoteRow).userId == u) = true := h
    rw [if_pos h2]
  · rw [if_neg h, if_neg h]

theorem voteKeysUnique_upsert (store : List VoteRow) (p u : String) (v : Int)
    (h : VoteKeysUnique store) : VoteKeysUnique (upsertVote store p u v) := by
  unfold upsertVote
  by_cases ha : (store.any fun r => r.postId == p && r.userId == u) = true
  · rw [if_pos ha]
    unfold VoteKeysUnique at h ⊢
    rw [List.pairwise_map]
    apply h.imp
    intro a b hab
    rw [setVoteRow_key, setVoteRow_key]
    exact hab
  · rw [if_neg ha]
    unfold VoteKeysUnique at h ⊢
    rw [List.pairwise_append]
    refine ⟨h, List.pairwise_singleton _ _, ?_⟩
    intro a hmem b hb
    rw [List.mem_singleton] at hb
    subst hb
    have ha2 : (store.any fun r => r.postId == p && r.userId == u) = false := by
      simpa using ha
    rw [List.any_eq_false] at ha2
    have hno := ha2 a hmem
    intro hk
    have h1 : a.postId = p := congrArg Prod.fst hk
    have h2 : a.userId = u := congrArg Prod.snd hk
    apply hno
    rw [h1, h2]
    simp

theorem voteKeysUnique_delete (store : List VoteRow) (p u : String)
    (h : VoteKeysUnique store) : VoteKeysUnique (deleteVote store p u) :=
  List.Pairwise.sublist (List.filter_sublist _) h

theorem voteKeysUnique_handler (posts : List Post) (votes : List VoteRow)
    (postId userId : String) (voteBody : Option String) (h : VoteKeysUnique votes) :
    VoteKeysUnique (voteHandler posts votes postId userId voteBody).votes := by
  unfold voteHandler
  split
  · exact h
  · split
    · exact h
    · split
      · exact h
      · split
        · exact h
        · split
          · exact voteKeysUnique_delete _ _ _ h
          · exact voteKeysUnique_upsert _ _ _ _ h

theorem upsertVote_cons_ne (r : VoteRow) (t : List VoteRow) (p u : String) (v : Int)
    (h : (r.postId == p && r.userId == u) = false) :
    upsertVote (r :: t) p u v = r :: upsertVote t p u v := by
  unfold upsertVote
  rw [List.any_cons, h, Bool.false_or]
  by_cases ht : (t.any fun x => x.postId == p && x.userId == u) = true
  · rw [if_pos ht, if_pos ht, List.map_cons]
    unfold setVoteRow
    rw [if_neg (by rw [h]; exact Bool.false_ne_true)]
  · rw [if_neg ht, if_neg ht, List.cons_append]

theorem upsertVote_cons_eq (r : VoteRow) (t : List VoteRow) (p u : String) (v : Int)
    (h : (r.postId == p && r.userId == u) = true)
    (hrest : ∀ x ∈ t, (x.postId == p && x.userId == u) = false) :
    upsertVote (r :: t) p u v = { r with vote := v } :: t := by
  unfold upsertVote
  rw [List.any_cons, h, Bool.true_or, if_pos rfl, List.map_cons]
  congr 1
  · unfold setVoteRow
    rw [if_pos h]
  · have hmap : t.map (setVoteRow p u v) = t.map id := by
      apply List.map_congr_left
      intro x hx
      unfold setVoteRow
      rw [if_neg (by rw [hrest x hx]; exact Bool.false_ne_true)]
      rfl
    rw [hmap, List.map_id]

theorem upsertVote_idem (s : List VoteRow) (p u : String) (v : Int) :
    upsertVote (upsertVote s p u v) p u v = upsertVote s p u v := by
  have hanymap : ∀ l : List VoteRow,
      ((l.map (setVoteRow p u v)).any fun r => r.postId == p && r.userId == u)
        = (l.any fun r => r.postId == p && r.userId == u) := by
    intro l
    rw [List.any_map]
    congr 1
    funext r
    exact setVoteRow_cond p u v r
  by_cases ha : (s.any fun r => r.postId == p && r.userId == u) = true
  · have h1 : upsertVote s p u v = s.map (setVoteRow p u v) := by
      unfold upsertVote
      rw [if_pos ha]
    rw [h1]
    unfold upsertVote
    rw [hanymap s, if_pos ha, List.map_map]
    apply List.map_congr_left
    intro r _
    exact setVoteRow_idem p u v r
  · have ha' : (s.any fun r => r.postId == p && r.userId == u) = false := by
      simpa using ha
    have h1 : upsertVote s p u v = s ++ [{ postId := p, userId := u, vote := v }] := by
      unfold upsertVote
      rw [if_neg ha]
    rw [h1]
    unfold upsertVote
    rw [List.any_append, ha', Bool.false_or]
    have hnew : (({ postId := p, userId := u, vote := v } : VoteRow).postId == p
        && ({ postId := p, userId := u, vote := v } : VoteRow).userId == u) = true := by
      simp
    rw [List.any_cons]  -- [row].any = cond row || [].any
    rw [hnew, Bool.true_or, if_pos rfl, List.map_append, List.map_cons]
    have hmap : s.map (setVoteRow p u v) = s.map id := by
      apply List.map_congr_left
      intro x hx
      rw [List.any_eq_false] at ha'
      unfold setVoteRow
      rw [if_neg (by simpa using ha' x hx)]
      rfl
    rw [hmap, List.map_id]
    congr 2
    unfold setVoteRow
    rw [if_pos hnew]

theorem deleteVote_map_set (s : List VoteRow) (p u : String) (v : Int) :
    deleteVote (s.map (setVoteRow p u v)) p u = deleteVote s p u := by
  induction s with
  | nil => rfl
  | cons r t ih =>
    rw [List.map_cons]
    unfold deleteVote at ih ⊢
    rw [List.filter_cons, List.filter_cons]
    by_cases h : (r.postId == p && r.userId == u) = true
    · rw [setVoteRow_cond] at *
      simp only [setVoteRow_cond, h, Bool.not_true]
      exact ih
    · have h' : (r.postId == p && r.userId == u) = false := by simpa using h
      simp only [setVoteRow_cond, h', Bool.not_false, if_pos]
      have hid : setVoteRow p u v r = r := by
        unfold setVoteRow
        rw [if_neg h]
      rw [hid]
      exact congrArg (r :: ·) ih

theorem deleteVote_append_new (s : List VoteRow) (p u : String) (v : Int) :
    deleteVote (s ++ [{ postId := p, userId := u, vote := v }]) p u = deleteVote s p u := by
  unfold deleteVote
  rw [List.filter_append]
  simp

theorem deleteVote_upsert (s : List VoteRow) (p u : String) (v : Int) :
    deleteVote (upsertVote s p u v) p u = deleteVote s p u := by
  unfold upsertVote
  by_cases ha : (s.any fun r => r.postId == p && r.userId == u) = true
  · rw [if_pos ha]
    exact deleteVote_map_set s p u v
  · rw [if_neg ha]
    exact deleteVote_append_new s p u v

theorem deleteVote_no_row (s : List VoteRow) (p u : String)
    (h : (s.any fun r => r.postId == p && r.userId == u) = false) :
    deleteVote s p u = s := by
  unfold deleteVote
  apply List.filter_eq_self.mpr
  intro r hr
  rw [List.any_eq_false] at h
  have hx : (r.postId == p && r.userId == u) = false := by
    cases hc : (r.postId == p && r.userId == u)
    · rfl
    · exact absurd hc (h r hr)
  rw [hx]
  rfl

theorem voteSummary_foldl_score (uid : Option String) (l : List VoteRow)
    (acc : VoteSummary) :
    (l.foldl (voteSummaryStep uid) acc).score
      = acc.score + (l.map (fun r => safeVote r.vote)).sum := by
  induction l generalizing acc with
  | nil => simp
  | cons r t ih =>
    rw [List.foldl_cons, ih, List.map_cons, List.sum_cons]
    show (voteSummaryStep uid acc r).score + _ = _
    unfold voteSummaryStep
    dsimp only
    ring

theorem voteSummary_foldl_up (uid : Option String) (l : List VoteRow)
    (acc : VoteSummary) :
    (l.foldl (voteSummaryStep uid) acc).upvoteCount
      = acc.upvoteCount
        + (l.map (fun r => if safeVote r.vote = 1 then (1 : Int) else 0)).sum := by
  induction l generalizing acc with
  | nil => simp
  | cons r t ih =>
    rw [List.foldl_cons, ih, List.map_cons, List.sum_cons]
    show (voteSummaryStep uid acc r).upvoteCount + _ = _
    unfold voteSummaryStep
    dsimp only
    ring

theorem voteSummary_foldl_down (uid : Option String) (l : List VoteRow)
    (acc : VoteSummary) :
    (l.foldl (voteSummaryStep uid) acc).downvoteCount
      = acc.downvoteCount
        + (l.map (fun r => if safeVote r.vote = -1 then (1 : Int) else 0)).sum := by
  induction l generalizing acc with
  | nil => simp
  | cons r t ih =>
    rw [List.foldl_cons, ih, List.map_cons, List.sum_cons]
    show (voteSummaryStep uid acc r).downvoteCount + _ = _
    unfold voteSummaryStep
    dsimp only
    ring

theorem getVoteSummary_score (s : List VoteRow) (p : String) (uid : Option String) :
    (getVoteSummary s p uid).score
      = ((s.filter (fun r => r.postId == p)).map (fun r => safeVote r.vote)).sum := by
  unfold getVoteSummary
  rw [voteSummary_foldl_score]
  simp [emptyVoteSummary]

theorem safeVote_decomp (v : Int) :
    safeVote v
      = (if safeVote v = 1 then (1 : Int) else 0)
        - (if safeVote v = -1 then (1 : Int) else 0) := by
  unfold safeVote
  by_cases h1 : v = 1
  · simp [h1]
  · by_cases h2 : v = -1
    · simp [h1, h2]
    · simp [h1, h2]

theorem sum_safeVote_split (l : List VoteRow) :
    (l.map (fun r => safeVote r.vote)).sum
      = (l.map (fun r => if safeVote r.vote = 1 then (1 : Int) else 0)).sum
        - (l.map (fun r => if safeVote r.vote = -1 then (1 : Int) else 0)).sum := by
  induction l with
  | nil => simp
  | cons r t ih =>
    simp only [List.map_cons, List.sum_cons]
    have h := safeVote_decomp r.vote
    linarith

theorem getVoteSummary_up_down (s : List VoteRow) (p : String) (uid : Option String) :
    (getVoteSummary s p uid).score
      = (getVoteSummary s p uid).upvoteCount - (getVoteSummary s p uid).downvoteCount := by
  unfold getVoteSummary
  rw [voteSummary_foldl_score, voteSummary_foldl_up, voteSummary_foldl_down]
  have h := sum_safeVote_split (s.filter (fun r => r.postId == p))
  simp only [emptyVoteSummary]
  linarith

theorem find?_append_none {α : Type} (p : α → Bool) {l1 : List α} (l2 : List α)
    (h : l1.find? p = none) : (l1 ++ l2).find? p = l2.find? p := by
  induction l1 with
  | nil => rfl
  | cons a t ih =>
    cases hpa : p a
    · rw [List.cons_append,
        List.find?_cons_of_neg _ (by rw [hpa]; exact Bool.false_ne_true)]
      rw [List.find?_cons_of_neg _ (by rw [hpa]; exact Bool.false_ne_true)] at h
      exact ih h
    · rw [List.find?_cons_of_pos _ hpa] at h
      exact absurd h (by simp)

theorem currentVote_upsert (s : List VoteRow) (p u : String) (v : Int) :
    currentVote (upsertVote s p u v) p u = v := by
  unfold upsertVote
  by_cases ha : (s.any fun r => r.postId == p && r.userId == u) = true
  · rw [if_pos ha]
    unfold currentVote
    have hcomp : ((fun r : VoteRow => r.postId == p && r.userId == u)
        ∘ setVoteRow p u v) = (fun r : VoteRow => r.postId == p && r.userId == u) := by
      funext r
      exact setVoteRow_cond p u v r
    rw [List.find?_map, hcomp]
    rw [List.any_eq_true] at ha
    obtain ⟨r0, hr0, hc0⟩ := ha
    cases hf : s.find? (fun r => r.postId == p && r.userId == u) with
    | none =>
      rw [List.find?_eq_none] at hf
      exact absurd hc0 (hf r0 hr0)
    | some r1 =>
      have hc1 := List.find?_some hf
      show (setVoteRow p u v r1).vote = v
      unfold setVoteRow
      rw [if_pos hc1]
  · rw [if_neg ha]
    unfold currentVote
    have hnone : s.find? (fun r => r.postId == p && r.userId == u) = none := by
      rw [List.find?_eq_none]
      intro x hx
      have ha2 : (s.any fun r => r.postId == p && r.userId == u) = false := by
        simpa using ha
      rw [List.any_eq_false] at ha2
      exact ha2 x hx
    rw [find?_append_none _ _ hnone]
    rw [List.find?_cons]
    have hc : (({ postId := p, userId := u, vote := v } : VoteRow).postId == p
        && ({ postId := p, userId := u, vote := v } : VoteRow).userId == u) = true := by
      simp
    rw [hc]

theorem sumScore_upsert (p u : String) (v : Int) :
    ∀ s : List VoteRow, VoteKeysUnique s →
    (((upsertVote s p u v).filter (fun r => r.postId == p)).map
        (fun r => safeVote r.vote)).sum
      = ((s.filter (fun r => r.postId == p)).map (fun r => safeVote r.vote)).sum
        - safeVote (currentVote s p u) + safeVote v := by
  intro s
  induction s with
  | nil =>
    intro _
    have h0 : upsertVote [] p u v = [{ postId := p, userId := u, vote := v }] := rfl
    rw [h0]
    simp [currentVote, safeVote]
  | cons r t ih =>
    intro hu
    have hut : VoteKeysUnique t := hu.of_cons
    have hpair : ∀ b ∈ t, voteKey r ≠ voteKey b := (List.pairwise_cons.mp hu).1
    by_cases hr : (r.postId == p && r.userId == u) = true
    · have hrp : r.postId = p := eq_of_beq ((Bool.and_eq_true _ _).mp hr).1
      have hru : r.userId = u := eq_of_beq ((Bool.and_eq_true _ _).mp hr).2
      have hrest : ∀ x ∈ t, (x.postId == p && x.userId == u) = false := by
        intro x hx
        cases hxx : (x.postId == p && x.userId == u)
        · rfl
        · exfalso
          have hxp : x.postId = p := eq_of_beq ((Bool.and_eq_true _ _).mp hxx).1
          have hxu : x.userId = u := eq_of_beq ((Bool.and_eq_true _ _).mp hxx).2
          exact hpair x hx (by unfold voteKey; rw [hrp, hru, hxp, hxu])
      rw [upsertVote_cons_eq r t p u v hr hrest]
      have hcur : currentVote (r :: t) p u = r.vote := by
        unfold currentVote
        rw [List.find?_cons, hr]
      rw [hcur, List.filter_cons, List.filter_cons]
      have hpold : (r.postId == p) = true := by rw [hrp]; simp
      have hpnew : (({ r with vote := v } : VoteRow).postId == p) = true := hpold
      rw [if_pos hpnew, if_pos hpold]
      simp only [List.map_cons, List.sum_cons]
      ring
    · have hr' : (r.postId == p && r.userId == u) = false := by
        cases hxx : (r.postId == p && r.userId == u)
        · rfl
        · exact absurd hxx hr
      rw [upsertVote_cons_ne r t p u v hr']
      have hcur : currentVote (r :: t) p u = currentVote t p u := by
        unfold currentVote
        rw [List.find?_cons, hr']
      rw [hcur, List.filter_cons, List.filter_cons]
      by_cases hp : (r.postId == p) = true
      · rw [if_pos hp, if_pos hp]
        simp only [List.map_cons, List.sum_cons]
        rw [ih hut]
        ring
      · rw [if_neg hp, if_neg hp]
        exact ih hut

theorem getVoteSummary_upsert_score (uid : Option String) (p u : String) (v : Int)
    (s : List VoteRow) (hu : VoteKeysUnique s) :
    (getVoteSummary (upsertVote s p u v) p uid).score
      = (getVoteSummary s p uid).score - safeVote (currentVote s p u) + safeVote v := by
  rw [getVoteSummary_score, getVoteSummary_score]
  exact sumScore_upsert p u v s hu

/-- C6: the (post,user) key stays unique under upsert, delete and the whole
vote endpoint; voting up twice leaves the store (hence the score) unchanged;
voting down right after up moves the score by exactly minus two; voting none
after an upsert restores the store without the row, and when no row existed
before, restores the store exactly (so all counts return to baseline); the
aggregate score always equals upvoteCount minus downvoteCount, and when every
stored value is plus or minus one it equals the sum of the stored values. -/
theorem C6_vote_uniqueness_and_aggregation (s : List VoteRow) (p u : String) (v : Int)
    (uid : Option String) (posts : List Post) (postId userId : String)
    (voteBody : Option String) (huniq : VoteKeysUnique s) :
    VoteKeysUnique (upsertVote s p u v)
    ∧ VoteKeysUnique (deleteVote s p u)
    ∧ VoteKeysUnique (voteHandler posts s postId userId voteBody).votes
    ∧ upsertVote (upsertVote s p u v) p u v = upsertVote s p u v
    ∧ (getVoteSummary (upsertVote (upsertVote s p u 1) p u (-1)) p uid).score
        = (getVoteSummary (upsertVote s p u 1) p uid).score - 2
    ∧ deleteVote (upsertVote s p u v) p u = deleteVote s p u
    ∧ ((s.any fun r => r.postId == p && r.userId == u) = false
        → deleteVote (upsertVote s p u v) p u = s)
    ∧ (getVoteSummary s p uid).score
        = (getVoteSummary s p uid).upvoteCount - (getVoteSummary s p uid).downvoteCount
    ∧ ((∀ r ∈ s, r.vote = 1 ∨ r.vote = -1)
        → (getVoteSummary s p uid).score
            = ((s.filter (fun r => r.postId == p)).map (fun r => r.vote)).sum) := by
  refine ⟨voteKeysUnique_upsert s p u v huniq, voteKeysUnique_delete s p u huniq,
    voteKeysUnique_handler posts s postId userId voteBody huniq,
    upsertVote_idem s p u v, ?_, deleteVote_upsert s p u v, ?_, ?_, ?_⟩
  · have h1 : VoteKeysUnique (upsertVote s p u 1) := voteKeysUnique_upsert s p u 1 huniq
    have h2 := getVoteSummary_upsert_score uid p u (-1) (upsertVote s p u 1) h1
    rw [currentVote_upsert] at h2
    rw [h2]
    have hs1 : safeVote 1 = 1 := rfl
    have hs2 : safeVote (-1) = -1 := rfl
    rw [hs1, hs2]
    ring
  · intro hnone
    rw [deleteVote_upsert s p u v, deleteVote_no_row s p u hnone]
  · exact getVoteSummary_up_down s p uid
  · intro hsigned
    rw [getVoteSummary_score]
    congr 1
    apply List.map_congr_left
    intro r hr
    rcases hsigned r (List.mem_of_mem_filter hr) with h1 | h1 <;> simp [safeVote, h1]

/-- Closed witness for C6 at a concrete empty store and key. -/
theorem C6_vote_witness :
    upsertVote (upsertVote [] "p" "u" 1) "p" "u" 1 = upsertVote [] "p" "u" 1
    ∧ (getVoteSummary (upsertVote (upsertVote [] "p" "u" 1) "p" "u" (-1)) "p" none).score
        = (getVoteSummary (upsertVote [] "p" "u" 1) "p" none).score - 2
    ∧ deleteVote (upsertVote [] "p" "u" 1) "p" "u" = [] :=
  ⟨(C6_vote_uniqueness_and_aggregation [] "p" "u" 1 none [] "p" "u" none
      List.Pairwise.nil).2.2.2.1,
   (C6_vote_uniqueness_and_aggregation [] "p" "u" 1 none [] "p" "u" none
      List.Pairwise.nil).2.2.2.2.1,
   (C6_vote_uniqueness_and_aggregation [] "p" "u" 1 none [] "p" "u" none
      List.Pairwise.nil).2.2.2.2.2.2.1 rfl⟩

/-- ASCII lowercase of a string, the `toLowerCase()` of the source. -/
def lowerStr (s : String) : String :=
  ⟨s.data.map Char.toLower⟩

/-- ASCII uppercase of a string, the `toUpperCase()` of the source. -/
def upperStr (s : String) : String :=
  ⟨s.data.map Char.toUpper⟩

/-- Embedding of `isModeratorRole`: admin or faculty, case-insensitive. -/
def isModeratorRole (role : String) : Bool :=
  lowerStr role == "admin" || lowerStr role == "faculty"

/-- Embedding of `isAlumniRole`. -/
def isAlumniRole (role : String) : Bool :=
  lowerStr role == "alumni"

/-- Embedding of `canCreateAnnouncement`. -/
def canCreateAnnouncement (role : String) : Bool :=
  isModeratorRole role

/-- Embedding of `canCreateJobAsBypassRole`. -/
def canCreateJobAsBypassRole (role : String) : Bool :=
  isModeratorRole role

/-- Embedding of `resolveVerificationStatus` from `post-service`, applied to
the list of application statuses of one applicant: priority
approved, then pending, then rejected, else not submitted. -/
def resolveVerificationStatus (rows : List String) : String :=
  if rows.any (fun st => st == "approved") then "approved"
  else if rows.any (fun st => st == "pending") then "pending"
  else if rows.any (fun st => st == "rejected") then "rejected"
  else "not_submitted"

/-- Authenticated caller decoded from the request credential. -/
structure RequestUser where
  id : String
  role : String
deriving DecidableEq, Repr

/-- Outcome of the authoring gate of `POST /posts`. -/
inductive CreateOutcome where
  | unauthorized (msg : String)
  | forbidden (msg : String)
  | created (authorId : Option String)
deriving DecidableEq, Repr

/-- Embedding of the authoring gate of `POST /posts` (the handler after
payload validation): ANNOUNCEMENT and JOB require authentication and force
the stored author to the caller; ANNOUNCEMENT needs a moderator; JOB passes
moderators unconditionally and otherwise needs an alumni caller whose
effective verification status (resolved over `verifications`, the status list
of the caller's applications) is approved; every other type stores the
client-supplied author id. -/
def createPostGate (typeInput : String) (bodyAuthorId : Option String)
    (requestUser : Option RequestUser) (verifications : List String) : CreateOutcome :=
  if upperStr typeInput == "ANNOUNCEMENT" || upperStr typeInput == "JOB" then
    match requestUser with
    | none => CreateOutcome.unauthorized "Authentication required"
    | some user =>
      if upperStr typeInput == "ANNOUNCEMENT" && !canCreateAnnouncement user.role then
        CreateOutcome.forbidden "Only faculty/admin can create ANNOUNCEMENT posts."
      else if upperStr typeInput == "JOB" then
        if canCreateJobAsBypassRole user.role then
          CreateOutcome.created (some user.id)
        else if !isAlumniRole user.role then
          CreateOutcome.forbidden "Only verified alumni or faculty/admin can create JOB posts."
        else if resolveVerificationStatus verifications != "approved" then
          CreateOutcome.forbidden "Only verified alumni or faculty/admin can create JOB posts."
        else
          CreateOutcome.created (some user.id)
      else
        CreateOutcome.created (some user.id)
  else
    CreateOutcome.created bodyAuthorId

theorem alumni_not_moderator {role : String} (h : isAlumniRole role = true) :
    isModeratorRole role = false := by
  unfold isAlumniRole at h
  unfold isModeratorRole
  have hr : lowerStr role = "alumni" := eq_of_beq h
  rw [hr]
  decide

/-- C1: for a JOB creation, a moderator caller always passes the gate and the
stored author is the caller; an alumni caller passes exactly when the
effective verification status is approved and is otherwise Forbidden; and for
JOB and ANNOUNCEMENT every successful creation stores the authenticated
caller as author, overriding any body-supplied author id. -/
theorem C1_job_authoring_gate (t : String) (u : RequestUser)
    (verifications : List String) (bodyAuthorId : Option String) :
    (upperStr t = "JOB" →
      (isModeratorRole u.role = true →
        createPostGate t bodyAuthorId (some u) verifications
          = CreateOutcome.created (some u.id))
      ∧ (isAlumniRole u.role = true →
        (createPostGate t bodyAuthorId (some u) verifications
            = CreateOutcome.created (some u.id)
          ↔ resolveVerificationStatus verifications = "approved"))
      ∧ (isAlumniRole u.role = true →
          resolveVerificationStatus verifications ≠ "approved" →
        createPostGate t bodyAuthorId (some u) verifications
          = CreateOutcome.forbidden
              "Only verified alumni or faculty/admin can create JOB posts."))
    ∧ ((upperStr t = "JOB" ∨ upperStr t = "ANNOUNCEMENT") →
      ∀ a, createPostGate t bodyAuthorId (some u) verifications
          = CreateOutcome.created a → a = some u.id) := by
  constructor
  · intro ht
    refine ⟨?_, ?_, ?_⟩
    · intro hmod
      unfold createPostGate
      rw [ht]
      simp [canCreateJobAsBypassRole, hmod]
    · intro halum
      have hb : isModeratorRole u.role = false := alumni_not_moderator halum
      unfold createPostGate
      rw [ht]
      by_cases hres : resolveVerificationStatus verifications = "approved"
      · simp [canCreateJobAsBypassRole, hb, halum, hres]
      · simp [canCreateJobAsBypassRole, hb, halum, hres]
    · intro halum hres
      have hb : isModeratorRole u.role = false := alumni_not_moderator halum
      unfold createPostGate
      rw [ht]
      simp [canCreateJobAsBypassRole, hb, halum, hres]
  · intro hty a hga
    rcases hty with ht | ht
    · unfold createPostGate at hga
      rw [ht] at hga
      by_cases hb : canCreateJobAsBypassRole u.role = true
      · simp [hb] at hga
        exact hga.symm
      · have hb2 : canCreateJobAsBypassRole u.role = false := by simpa using hb
        by_cases hal : isAlumniRole u.role = true
        · by_cases hres : resolveVerificationStatus verifications = "approved"
          · simp [hb2, hal, hres] at hga
            exact hga.symm
          · simp [hb2, hal, hres] at hga
        · have hal2 : isAlumniRole u.role = false := by simpa using hal
          simp [hb2, hal2] at hga
    · unfold createPostGate at hga
      rw [ht] at hga
      by_cases hc : canCreateAnnouncement u.role = true
      · simp [hc] at hga
        exact hga.symm
      · have hc2 : canCreateAnnouncement u.role = false := by simpa using hc
        simp [hc2] at hga

/-- Closed witness for C1: a faculty caller creates a JOB post with the
stored author forced to their own id despite a spoofed body author; an
approved alumni succeeds likewise; a pending alumni is Forbidden. -/
theorem C1_job_authoring_gate_witness :
    createPostGate "JOB" (some "spoof") (some { id := "mod1", role := "faculty" }) []
      = CreateOutcome.created (some "mod1")
    ∧ createPostGate "JOB" (some "spoof") (some { id := "al1", role := "alumni" })
        ["approved"] = CreateOutcome.created (some "al1")
    ∧ createPostGate "JOB" (some "spoof") (some { id := "al1", role := "alumni" })
        ["pending"]
      = CreateOutcome.forbidden
          "Only verified alumni or faculty/admin can create JOB posts." :=
  ⟨((C1_job_authoring_gate "JOB" { id := "mod1", role := "faculty" } []
      (some "spoof")).1 (by decide)).1 (by decide),
   (((C1_job_authoring_gate "JOB" { id := "al1", role := "alumni" } ["approved"]
      (some "spoof")).1 (by decide)).2.1 (by decide)).mpr (by decide),
   ((C1_job_authoring_gate "JOB" { id := "al1", role := "alumni" } ["pending"]
      (some "spoof")).1 (by decide)).2.2 (by decide) (by decide)⟩

/-- Row of the `alumni_verification_applications` table (columns the review
and effective-status logic touch). -/
structure Application where
  id : String
  applicantId : String
  status : String
  reviewNote : Option String
  reviewedBy : Option String
deriving DecidableEq, Repr

/-- Result shape of `resolveStateFromApplications` in `user-service`. -/
structure VerificationState where
  status : String
  isVerified : Bool
  application : Option Application
deriving DecidableEq, Repr

/-- Embedding of `resolveStateFromApplications`: priority resolution
approved, then pending, then rejected, else not submitted, carrying the first
matching application. -/
def resolveStateFromApplications (rows : List Application) : VerificationState :=
  match rows.find? (fun a => a.status == "approved") with
  | some ap => { status := "approved", isVerified := true, application := some ap }
  | none =>
    match rows.find? (fun a => a.status == "pending") with
    | some pe => { status := "pending", isVerified := false, application := some pe }
    | none =>
      match rows.find? (fun a => a.status == "rejected") with
      | some re => { status := "rejected", isVerified := false, application := some re }
      | none => { status := "not_submitted", isVerified := false, application := none }

/-- Errors of the moderator review endpoint. -/
inductive ReviewError where
  | badAction
  | notFound
deriving DecidableEq, Repr

/-- Status the review writes: approve gives approved, anything else gives
rejected (the guard has already restricted the action). -/
def reviewNextStatus (action : String) : String :=
  if lowerStr (normalizeText action) == "approve" then "approved" else "rejected"

/-- Embedding of `PATCH /notifications/alumni-verifications/:id` (after
moderator authentication): validate the action, load the application by id,
set its status to approved or rejected with the supplied note and reviewer —
with no guard on its current status — and, on approval, force every other
pending application of the same applicant to rejected with the system note.
The note length cap of the source is orthogonal and omitted. -/
def reviewVerification (apps : List Application) (requestId action : String)
    (reviewNote : Option String) (reviewerId : String) :
    Except ReviewError (List Application) :=
  if lowerStr (normalizeText action) != "approve"
      && lowerStr (normalizeText action) != "reject" then
    Except.error ReviewError.badAction
  else
    match apps.find? (fun a => a.id == requestId) with
    | none => Except.error ReviewError.notFound
    | some existing =>
      if reviewNextStatus action == "approved" then
        Except.ok ((apps.map (fun a =>
          if a.id == requestId then
            { a with status := reviewNextStatus action,
                     reviewNote := reviewNote,
                     reviewedBy := some reviewerId }
          else a)).map (fun a =>
            if a.applicantId == existing.applicantId && a.status == "pending"
                && a.id != existing.id then
              { a with status := "rejected",
                       reviewNote := some "Superseded by an approved verification.",
                       reviewedBy := some reviewerId }
            else a))
      else
        Except.ok (apps.map (fun a =>
          if a.id == requestId then
            { a with status := reviewNextStatus action,
                     reviewNote := reviewNote,
                     reviewedBy := some reviewerId }
          else a))

/-- Errors of the apply endpoint. -/
inductive ApplyError where
  | forbidden
  | conflict (msg : String)
deriving DecidableEq, Repr

/-- Embedding of `POST /alumni-verification/apply` (after authentication and
input validation): only alumni accounts may apply; an effective status of
approved or pending is refused with Conflict; otherwise a fresh pending
application is inserted. -/
def applyVerification (apps : List Application) (userRole userId newId : String) :
    Except ApplyError (List Application) :=
  if !isAlumniRole userRole then
    Except.error ApplyError.forbidden
  else if (resolveStateFromApplications
      (apps.filter (fun a => a.applicantId == userId))).status == "approved" then
    Except.error (ApplyError.conflict "Your alumni account is already verified.")
  else if (resolveStateFromApplications
      (apps.filter (fun a => a.applicantId == userId))).status == "pending" then
    Except.error (ApplyError.conflict "You already have a pending application.")
  else
    Except.ok (apps ++ [{ id := newId, applicantId := userId, status := "pending",
                          reviewNote := none, reviewedBy := none }])

theorem resolveState_approved_of_mem {l : List Application}
    (h : ∃ a ∈ l, a.status = "approved") :
    (resolveStateFromApplications l).status = "approved" := by
  unfold resolveStateFromApplications
  cases hf : l.find? (fun a => a.status == "approved") with
  | some a => rfl
  | none =>
    rw [List.find?_eq_none] at hf
    obtain ⟨a, hmem, ha⟩ := h
    have : (a.status == "approved") = true := by rw [ha]; rfl
    exact absurd this (hf a hmem)

theorem find?_eq_of_unique_ids {apps : List Application} {A : Application}
    (huniq : apps.Pairwise (fun a b => a.id ≠ b.id)) (hmem : A ∈ apps) :
    apps.find? (fun a => a.id == A.id) = some A := by
  induction apps with
  | nil => cases hmem
  | cons r t ih =>
    rcases List.mem_cons.mp hmem with h | h
    · rw [h, List.find?_cons]
      have hb : (r.id == r.id) = true := by simp
      rw [hb]
    · have hne : r.id ≠ A.id := (List.pairwise_cons.mp huniq).1 A h
      have hb : (r.id == A.id) = false := by
        cases hbeq : r.id == A.id
        · rfl
        · exact absurd (eq_of_beq hbeq) hne
      rw [List.find?_cons, hb]
      exact ih (List.pairwise_cons.mp huniq).2 h

theorem reviewVerification_approve_eq (apps : List Application) (A : Application)
    (note : Option String) (rid act : String)
    (hval : lowerStr (normalizeText act) = "approve")
    (huniq : apps.Pairwise (fun a b => a.id ≠ b.id)) (hmem : A ∈ apps) :
    reviewVerification apps A.id act note rid
      = Except.ok ((apps.map (fun a =>
          if a.id == A.id then
            { a with status := "approved", reviewNote := note, reviewedBy := some rid }
          else a)).map (fun a =>
            if a.applicantId == A.applicantId && a.status == "pending"
                && a.id != A.id then
              { a with status := "rejected",
                       reviewNote := some "Superseded by an approved verification.",
                       reviewedBy := some rid }
            else a)) := by
  have hnext : reviewNextStatus act = "approved" := by
    unfold reviewNextStatus
    rw [hval]
    decide
  have hguard : (lowerStr (normalizeText act) != "approve"
      && lowerStr (normalizeText act) != "reject") = false := by
    rw [hval]
    decide
  unfold reviewVerification
  rw [hguard, find?_eq_of_unique_ids huniq hmem, hnext]
  simp

theorem reviewVerification_reject_eq (apps : List Application) (A : Application)
    (note : Option String) (rid act : String)
    (hval : lowerStr (normalizeText act) = "reject")
    (huniq : apps.Pairwise (fun a b => a.id ≠ b.id)) (hmem : A ∈ apps) :
    reviewVerification apps A.id act note rid
      = Except.ok (apps.map (fun a =>
          if a.id == A.id then
            { a with status := "rejected", reviewNote := note, reviewedBy := some rid }
          else a)) := by
  have hnext : reviewNextStatus act = "rejected" := by
    unfold reviewNextStatus
    rw [hval]
    decide
  have hguard : (lowerStr (normalizeText act) != "approve"
      && lowerStr (normalizeText act) != "reject") = false := by
    rw [hval]
    decide
  unfold reviewVerification
  rw [hguard, find?_eq_of_unique_ids huniq hmem, hnext]
  simp

/-- C2: approving one of several pending applications of an applicant sets it
to approved and, in the same operation, turns every other pending application
of that applicant into rejected with the system-generated supersede note;
applications of other applicants are untouched; and the effective status of
the applicant (priority approved over pending over rejected) resolves to
approved in whatever order the rows are examined. -/
theorem C2_approve_supersedes_other_pending (apps : List Application)
    (A : Application) (note : Option String) (rid : String)
    (huniq : apps.Pairwise (fun a b => a.id ≠ b.id))
    (hmem : A ∈ apps) (_hpend : A.status = "pending") :
    ∃ apps2, reviewVerification apps A.id "approve" note rid = Except.ok apps2
    ∧ (∃ A2 ∈ apps2, A2.id = A.id ∧ A2.applicantId = A.applicantId
        ∧ A2.status = "approved")
    ∧ (∀ B ∈ apps, B.applicantId = A.applicantId → B.id ≠ A.id →
        B.status = "pending" →
        ∃ B2 ∈ apps2, B2.id = B.id ∧ B2.status = "rejected"
          ∧ B2.reviewNote = some "Superseded by an approved verification.")
    ∧ (∀ D ∈ apps, D.applicantId ≠ A.applicantId → D ∈ apps2)
    ∧ (∀ l : List Application,
        List.Perm (apps2.filter (fun a => a.applicantId == A.applicantId)) l →
        (resolveStateFromApplications l).status = "approved") := by
  have hred := reviewVerification_approve_eq apps A note rid "approve" (by decide)
    huniq hmem
  set f : Application → Application := fun a =>
    if a.id == A.id then
      { a with status := "approved", reviewNote := note, reviewedBy := some rid }
    else a with hf
  set g : Application → Application := fun a =>
    if a.applicantId == A.applicantId && a.status == "pending" && a.id != A.id then
      { a with status := "rejected",
               reviewNote := some "Superseded by an approved verification.",
               reviewedBy := some rid }
    else a with hg
  have hfA : f A = { A with status := "approved", reviewNote := note,
                            reviewedBy := some rid } := by
    rw [hf]
    simp
  have hgfA : g (f A) = f A := by
    rw [hg, hfA]
    simp
  have hkey : g (f A) = { A with status := "approved", reviewNote := note,
                                 reviewedBy := some rid } := by
    rw [hgfA, hfA]
  refine ⟨(apps.map f).map g, hred, ?_, ?_, ?_, ?_⟩
  · exact ⟨g (f A), List.mem_map_of_mem g (List.mem_map_of_mem f hmem),
      by rw [hkey], by rw [hkey], by rw [hkey]⟩
  · intro B hB hBapp hBid hBpend
    have hfB : f B = B := by
      rw [hf]
      have hb : (B.id == A.id) = false := by
        cases hb2 : B.id == A.id
        · rfl
        · exact absurd (eq_of_beq hb2) hBid
      simp [hb]
    have hgB : g B = { B with status := "rejected",
                              reviewNote := some "Superseded by an approved verification.",
                              reviewedBy := some rid } := by
      rw [hg]
      have h1 : (B.applicantId == A.applicantId) = true := by rw [hBapp]; simp
      have h2 : (B.status == "pending") = true := by rw [hBpend]; rfl
      have h3 : (B.id != A.id) = true := bne_iff_ne.mpr hBid
      simp [h1, h2, h3]
    have hkeyB : g (f B) = { B with status := "rejected",
                                    reviewNote := some "Superseded by an approved verification.",
                                    reviewedBy := some rid } := by
      rw [hfB, hgB]
    exact ⟨g (f B), List.mem_map_of_mem g (List.mem_map_of_mem f hB),
      by rw [hkeyB], by rw [hkeyB], by rw [hkeyB]⟩
  · intro D hD hDapp
    have hDA : D ≠ A := by
      intro he
      exact hDapp (by rw [he])
    have hDid : D.id ≠ A.id :=
      (huniq.forall (fun x y hxy => hxy.symm)) hD hmem hDA
    have hfD : f D = D := by
      rw [hf]
      have hb : (D.id == A.id) = false := by
        cases hb2 : D.id == A.id
        · rfl
        · exact absurd (eq_of_beq hb2) hDid
      simp [hb]
    have hgD : g D = D := by
      rw [hg]
      have hb : (D.applicantId == A.applicantId) = false := by
        cases hb2 : D.applicantId == A.applicantId
        · rfl
        · exact absurd (eq_of_beq hb2) hDapp
      simp [hb]
    have hDkeep : g (f D) = D := by rw [hfD, hgD]
    rw [← hDkeep]
    exact List.mem_map_of_mem g (List.mem_map_of_mem f hD)
  · intro l hperm
    apply resolveState_approved_of_mem
    have hA2mem : g (f A) ∈ (apps.map f).map g :=
      List.mem_map_of_mem g (List.mem_map_of_mem f hmem)
    have hfilter : g (f A) ∈ ((apps.map f).map g).filter
        (fun a => a.applicantId == A.applicantId) := by
      rw [List.mem_filter]
      refine ⟨hA2mem, ?_⟩
      rw [hkey]
      simp
    exact ⟨g (f A), hperm.mem_iff.mp hfilter, by rw [hkey]⟩

/-- Closed witness for C2: applicant x holds two pending applications;
approving the first makes the effective state approved with the second
superseded. -/
theorem C2_approve_supersedes_witness :
    ∃ apps2,
      reviewVerification
        [{ id := "a1", applicantId := "x", status := "pending",
           reviewNote := none, reviewedBy := none },
         { id := "a2", applicantId := "x", status := "pending",
           reviewNote := none, reviewedBy := none }]
        "a1" "approve" none "mod" = Except.ok apps2
      ∧ (∃ A2 ∈ apps2, A2.id = "a1" ∧ A2.applicantId = "x"
          ∧ A2.status = "approved")
      ∧ (∃ B2 ∈ apps2, B2.id = "a2" ∧ B2.status = "rejected"
          ∧ B2.reviewNote = some "Superseded by an approved verification.") := by
  obtain ⟨apps2, h1, h2, h3, _, _⟩ :=
    C2_approve_supersedes_other_pending
      [{ id := "a1", applicantId := "x", status := "pending",
         reviewNote := none, reviewedBy := none },
       { id := "a2", applicantId := "x", status := "pending",
         reviewNote := none, reviewedBy := none }]
      { id := "a1", applicantId := "x", status := "pending",
        reviewNote := none, reviewedBy := none }
      none "mod" (by simp) (by simp) rfl
  refine ⟨apps2, h1, h2, ?_⟩
  exact h3 { id := "a2", applicantId := "x", status := "pending",
             reviewNote := none, reviewedBy := none }
    (by simp) rfl (by simp) rfl

/-- C5 counterexample: a moderator review with action reject on an approved
application moves it to rejected, so approved is not terminal as the claim
states. -/
theorem C5_counterexample :
    reviewVerification
      [{ id := "a1", applicantId := "x", status := "approved",
         reviewNote := none, reviewedBy := none }] "a1" "reject" none "mod"
      = Except.ok
        [{ id := "a1", applicantId := "x", status := "rejected",
           reviewNote := none, reviewedBy := some "mod" }] := rfl

/-- C5 amended: the apply flow only makes the transitions not submitted to
pending and rejected to pending — it refuses an applicant whose effective
status is approved or pending and otherwise appends a fresh pending
application; moderator review, however, sets the reviewed application to
approved (action approve) or rejected (action reject) with no guard on its
current status, so approved is not terminal at the application level. -/
theorem C5_verification_transitions (apps : List Application) (A : Application)
    (note : Option String) (rid act userRole userId newId : String)
    (huniq : apps.Pairwise (fun a b => a.id ≠ b.id)) (hmem : A ∈ apps) :
    (lowerStr (normalizeText act) = "approve" →
      ∃ apps2, reviewVerification apps A.id act note rid = Except.ok apps2
        ∧ ∃ A2 ∈ apps2, A2.id = A.id ∧ A2.status = "approved")
    ∧ (lowerStr (normalizeText act) = "reject" →
      ∃ apps2, reviewVerification apps A.id act note rid = Except.ok apps2
        ∧ ∃ A2 ∈ apps2, A2.id = A.id ∧ A2.status = "rejected")
    ∧ (isAlumniRole userRole = true →
      ((resolveStateFromApplications (apps.filter
          (fun a => a.applicantId == userId))).status = "approved"
        → applyVerification apps userRole userId newId
            = Except.error
                (ApplyError.conflict "Your alumni account is already verified."))
      ∧ ((resolveStateFromApplications (apps.filter
          (fun a => a.applicantId == userId))).status = "pending"
        → applyVerification apps userRole userId newId
            = Except.error
                (ApplyError.conflict "You already have a pending application."))
      ∧ ((resolveStateFromApplications (apps.filter
          (fun a => a.applicantId == userId))).status ≠ "approved"
        → (resolveStateFromApplications (apps.filter
          (fun a => a.applicantId == userId))).status ≠ "pending"
        → applyVerification apps userRole userId newId
            = Except.ok (apps ++ [{ id := newId, applicantId := userId,
                                    status := "pending", reviewNote := none,
                                    reviewedBy := none }]))) := by
  refine ⟨?_, ?_, ?_⟩
  · intro hval
    have hred := reviewVerification_approve_eq apps A note rid act hval huniq hmem
    set f : Application → Application := fun a =>
      if a.id == A.id then
        { a with status := "approved", reviewNote := note, reviewedBy := some rid }
      else a with hf
    set g : Application → Application := fun a =>
      if a.applicantId == A.applicantId && a.status == "pending" && a.id != A.id then
        { a with status := "rejected",
                 reviewNote := some "Superseded by an approved verification.",
                 reviewedBy := some rid }
      else a with hg
    have hfA : f A = { A with status := "approved", reviewNote := note,
                              reviewedBy := some rid } := by
      rw [hf]
      simp
    have hkey : g (f A) = { A with status := "approved", reviewNote := note,
                                   reviewedBy := some rid } := by
      rw [hg, hfA]
      simp
    exact ⟨(apps.map f).map g, hred,
      g (f A), List.mem_map_of_mem g (List.mem_map_of_mem f hmem),
      by rw [hkey], by rw [hkey]⟩
  · intro hval
    have hred := reviewVerification_reject_eq apps A note rid act hval huniq hmem
    set f : Application → Application := fun a =>
      if a.id == A.id then
        { a with status := "rejected", reviewNote := note, reviewedBy := some rid }
      else a with hf
    have hfA : f A = { A with status := "rejected", reviewNote := note,
                              reviewedBy := some rid } := by
      rw [hf]
      simp
    exact ⟨apps.map f, hred, f A, List.mem_map_of_mem f hmem,
      by rw [hfA], by rw [hfA]⟩
  · intro halum
    have hrole : (!isAlumniRole userRole) = false := by rw [halum]; rfl
    refine ⟨?_, ?_, ?_⟩
    · intro hap
      unfold applyVerification
      rw [hrole]
      have hb : ((resolveStateFromApplications (apps.filter
          (fun a => a.applicantId == userId))).status == "approved") = true := by
        rw [hap]
        rfl
      rw [hb]
      simp
    · intro hpe
      unfold applyVerification
      rw [hrole]
      have hb1 : ((resolveStateFromApplications (apps.filter
          (fun a => a.applicantId == userId))).status == "approved") = false := by
        rw [hpe]
        decide
      have hb2 : ((resolveStateFromApplications (apps.filter
          (fun a => a.applicantId == userId))).status == "pending") = true := by
        rw [hpe]
        rfl
      rw [hb1, hb2]
      simp
    · intro hne1 hne2
      unfold applyVerification
      rw [hrole]
      have hb1 : ((resolveStateFromApplications (apps.filter
          (fun a => a.applicantId == userId))).status == "approved") = false := by
        cases hb : (resolveStateFromApplications (apps.filter
            (fun a => a.applicantId == userId))).status == "approved"
        · rfl
        · exact absurd (eq_of_beq hb) hne1
      have hb2 : ((resolveStateFromApplications (apps.filter
          (fun a => a.applicantId == userId))).status == "pending") = false := by
        cases hb : (resolveStateFromApplications (apps.filter
            (fun a => a.applicantId == userId))).status == "pending"
        · rfl
        · exact absurd (eq_of_beq hb) hne2
      rw [hb1, hb2]
      simp

/-- Closed witness for C5: reviewing the concrete approved application with
action reject yields a rejected row, and an applicant with only a rejected
application may resubmit, entering pending again. -/
theorem C5_verification_transitions_witness :
    (∃ apps2,
      reviewVerification
        [{ id := "a1", applicantId := "x", status := "approved",
           reviewNote := none, reviewedBy := none }] "a1" "reject" none "mod"
        = Except.ok apps2
      ∧ ∃ A2 ∈ apps2, A2.id = "a1" ∧ A2.status = "rejected")
    ∧ applyVerification
        [{ id := "a1", applicantId := "x", status := "rejected",
           reviewNote := none, reviewedBy := none }] "alumni" "x" "n1"
      = Except.ok
        [{ id := "a1", applicantId := "x", status := "rejected",
           reviewNote := none, reviewedBy := none },
         { id := "n1", applicantId := "x", status := "pending",
           reviewNote := none, reviewedBy := none }] := by
  constructor
  · exact (C5_verification_transitions
      [{ id := "a1", applicantId := "x", status := "approved",
         reviewNote := none, reviewedBy := none }]
      { id := "a1", applicantId := "x", status := "approved",
        reviewNote := none, reviewedBy := none }
      none "mod" "reject" "alumni" "x" "n1" (by simp) (by simp)).2.1 (by decide)
  · exact ((C5_verification_transitions
      [{ id := "a1", applicantId := "x", status := "rejected",
         reviewNote := none, reviewedBy := none }]
      { id := "a1", applicantId := "x", status := "rejected",
        reviewNote := none, reviewedBy := none }
      none "mod" "reject" "alumni" "x" "n1" (by simp) (by simp)).2.2
      (by decide)).2.2 (by decide) (by decide)

/-- Embedding of `laterIso` from `user-service`: the later of two optional
timestamps, keeping the first (stored) one on a tie. -/
def laterIso (a b : Option Nat) : Option Nat :=
  match a with
  | none => b
  | some x =>
    match b with
    | none => a
    | some y => if y ≤ x then a else b

/-- Row of `user_notification_states`, keyed by user id. -/
structure NotifStateRow where
  userId : String
  lastSeenAt : Option Nat
deriving DecidableEq, Repr

/-- Row of `user_notification_reads`, keyed by (user, notification key). -/
structure ReadRow where
  userId : String
  notificationKey : String
deriving DecidableEq, Repr

/-- Notification read-state of the user service. -/
structure NotifStore where
  states : List NotifStateRow
  reads : List ReadRow
deriving DecidableEq, Repr

/-- Stored last-seen value of a user (`existingState?.last_seen_at || null`). -/
def lookupLastSeen (states : List NotifStateRow) (userId : String) : Option Nat :=
  match states.find? (fun s => s.userId == userId) with
  | some s => s.lastSeenAt
  | none => none

/-- Per-row effect of the state upsert keyed on `user_id`. -/
def setStateRow (userId : String) (v : Option Nat) (s : NotifStateRow) : NotifStateRow :=
  if s.userId == userId then { s with lastSeenAt := v } else s

/-- Embedding of the notification-state upsert (`onConflict user_id`). -/
def upsertState (states : List NotifStateRow) (userId : String) (v : Option Nat) :
    List NotifStateRow :=
  if states.any (fun s => s.userId == userId) then
    states.map (setStateRow userId v)
  else
    states ++ [{ userId := userId, lastSeenAt := v }]

/-- Embedding of the read-key upsert (`onConflict user_id,notification_key`):
the row carries no other payload, so a conflict leaves the set unchanged. -/
def upsertRead (reads : List ReadRow) (userId key : String) : List ReadRow :=
  if reads.any (fun r => r.userId == userId && r.notificationKey == key) then reads
  else reads ++ [{ userId := userId, notificationKey := key }]

/-- Timestamp half of `POST /notifications/state/mark-read`: a given
timestamp is merged with the stored value via `laterIso` and upserted. -/
def markReadStates (states : List NotifStateRow) (userId : String)
    (lastSeenAt : Option Nat) : List NotifStateRow :=
  match lastSeenAt with
  | none => states
  | some t => upsertState states userId (laterIso (lookupLastSeen states userId) (some t))

/-- Key half of `POST /notifications/state/mark-read`: a non-empty trimmed
key is upserted into the read set. -/
def markReadReads (reads : List ReadRow) (userId key : String) : List ReadRow :=
  if key == "" then reads else upsertRead reads userId key

/-- Embedding of `POST /notifications/state/mark-read` (after authentication
and timestamp parsing): requires a timestamp or a key, then applies the two
upsert halves. -/
def markRead (store : NotifStore) (userId : String) (lastSeenAt : Option Nat)
    (notificationKeyBody : String) : Except String NotifStore :=
  if normalizeText notificationKeyBody == "" && lastSeenAt == none then
    Except.error "Provide lastSeenAt or notificationKey"
  else
    Except.ok
      { states := markReadStates store.states userId lastSeenAt,
        reads := markReadReads store.reads userId (normalizeText notificationKeyBody) }

theorem laterIso_some_some (x t : Nat) : laterIso (some x) (some t) = some (max x t) := by
  show (if t ≤ x then some x else some t) = some (max x t)
  by_cases h : t ≤ x
  · rw [if_pos h]
    congr 1
    omega
  · rw [if_neg h]
    congr 1
    omega

theorem setStateRow_userId (u : String) (v : Option Nat) (s : NotifStateRow) :
    (setStateRow u v s).userId = s.userId := by
  unfold setStateRow
  by_cases h : (s.userId == u) = true
  · rw [if_pos h]
  · rw [if_neg h]

theorem lookupLastSeen_upsert (states : List NotifStateRow) (u : String)
    (v : Option Nat) : lookupLastSeen (upsertState states u v) u = v := by
  unfold upsertState
  by_cases ha : (states.any fun s => s.userId == u) = true
  · rw [if_pos ha]
    unfold lookupLastSeen
    have hcomp : ((fun s : NotifStateRow => s.userId == u) ∘ setStateRow u v)
        = (fun s : NotifStateRow => s.userId == u) := by
      funext s
      show ((setStateRow u v s).userId == u) = (s.userId == u)
      rw [setStateRow_userId]
    rw [List.find?_map, hcomp]
    rw [List.any_eq_true] at ha
    obtain ⟨s0, hs0, hc0⟩ := ha
    cases hf : states.find? (fun s => s.userId == u) with
    | none =>
      rw [List.find?_eq_none] at hf
      exact absurd hc0 (hf s0 hs0)
    | some s1 =>
      have hc1 := List.find?_some hf
      show (setStateRow u v s1).lastSeenAt = v
      unfold setStateRow
      rw [if_pos hc1]
  · rw [if_neg ha]
    unfold lookupLastSeen
    have hnone : states.find? (fun s => s.userId == u) = none := by
      rw [List.find?_eq_none]
      intro x hx
      have ha2 : (states.any fun s => s.userId == u) = false := by simpa using ha
      rw [List.any_eq_false] at ha2
      exact ha2 x hx
    rw [find?_append_none _ _ hnone]
    rw [List.find?_cons]
    have hc : (({ userId := u, lastSeenAt := v } : NotifStateRow).userId == u) = true := by
      simp
    rw [hc]

theorem find?_append_none_state {α : Type} (p : α → Bool) {l1 : List α} (l2 : List α)
    (h : l1.find? p = none) : (l1 ++ l2).find? p = l2.find? p :=
  find?_append_none p l2 h

/-- C9: with a timestamp supplied, markRead stores the later of the stored
value and the supplied one — the maximum when both exist, the supplied one
when nothing was stored — so the stored value never moves backward; and a
supplied non-empty key lands in the read-key set keyed by
(userId, notificationKey), whose key uniqueness is preserved. -/
theorem C9_markRead_monotonic (store : NotifStore) (userId key : String) (t : Nat)
    (hkey : normalizeText key = key) :
    ∃ store2, markRead store userId (some t) key = Except.ok store2
    ∧ lookupLastSeen store2.states userId
        = laterIso (lookupLastSeen store.states userId) (some t)
    ∧ (∀ x, lookupLastSeen store.states userId = some x →
        lookupLastSeen store2.states userId = some (max x t))
    ∧ (lookupLastSeen store.states userId = none →
        lookupLastSeen store2.states userId = some t)
    ∧ (∀ x y, lookupLastSeen store.states userId = some x →
        lookupLastSeen store2.states userId = some y → x ≤ y)
    ∧ (key ≠ "" → ({ userId := userId, notificationKey := key } : ReadRow)
        ∈ store2.reads)
    ∧ (store.reads.Pairwise (fun a b =>
          (a.userId, a.notificationKey) ≠ (b.userId, b.notificationKey)) →
        store2.reads.Pairwise (fun a b =>
          (a.userId, a.notificationKey) ≠ (b.userId, b.notificationKey))) := by
  have hguard : (normalizeText key == "" && (some t : Option Nat) == none) = false := by
    cases hb : normalizeText key == ""
    · rfl
    · rfl
  have hred : markRead store userId (some t) key
      = Except.ok
        { states := markReadStates store.states userId (some t),
          reads := markReadReads store.reads userId (normalizeText key) } := by
    unfold markRead
    rw [hguard]
    rfl
  refine ⟨_, hred, ?_, ?_, ?_, ?_, ?_, ?_⟩
  · show lookupLastSeen (markReadStates store.states userId (some t)) userId = _
    unfold markReadStates
    exact lookupLastSeen_upsert store.states userId _
  · intro x hx
    show lookupLastSeen (markReadStates store.states userId (some t)) userId = _
    unfold markReadStates
    rw [lookupLastSeen_upsert store.states userId _, hx, laterIso_some_some]
  · intro hx
    show lookupLastSeen (markReadStates store.states userId (some t)) userId = _
    unfold markReadStates
    rw [lookupLastSeen_upsert store.states userId _, hx]
    rfl
  · intro x y hx hy
    have h2 : lookupLastSeen (markReadStates store.states userId (some t)) userId
        = some (max x t) := by
      unfold markReadStates
      rw [lookupLastSeen_upsert store.states userId _, hx, laterIso_some_some]
    have hy2 : some (max x t) = some y := by
      rw [← h2]
      exact hy
    have hyv : max x t = y := Option.some.inj hy2
    omega
  · intro hne
    show ({ userId := userId, notificationKey := key } : ReadRow)
        ∈ markReadReads store.reads userId (normalizeText key)
    unfold markReadReads
    rw [hkey]
    have hb : (key == "") = false := by
      cases hb2 : key == ""
      · rfl
      · exact absurd (eq_of_beq hb2) hne
    rw [hb, if_neg Bool.false_ne_true]
    unfold upsertRead
    by_cases ha : (store.reads.any fun r => r.userId == userId
        && r.notificationKey == key) = true
    · rw [if_pos ha]
      rw [List.any_eq_true] at ha
      obtain ⟨r0, hr0, hc0⟩ := ha
      have h1 : r0.userId = userId := eq_of_beq ((Bool.and_eq_true _ _).mp hc0).1
      have h2 : r0.notificationKey = key := eq_of_beq ((Bool.and_eq_true _ _).mp hc0).2
      have : r0 = { userId := userId, notificationKey := key } := by
        cases r0
        simp only at h1 h2
        rw [h1, h2]
      rw [← this]
      exact hr0
    · rw [if_neg ha]
      exact List.mem_append_right _ (by simp)
  · intro hp
    show (markReadReads store.reads userId (normalizeText key)).Pairwise _
    unfold markReadReads
    rw [hkey]
    by_cases hb : (key == "") = true
    · rw [if_pos hb]
      exact hp
    · rw [if_neg hb]
      unfold upsertRead
      by_cases ha : (store.reads.any fun r => r.userId == userId
          && r.notificationKey == key) = true
      · rw [if_pos ha]
        exact hp
      · rw [if_neg ha]
        rw [List.pairwise_append]
        refine ⟨hp, List.pairwise_singleton _ _, ?_⟩
        intro a hmem b hbmem
        rw [List.mem_singleton] at hbmem
        subst hbmem
        have ha2 : (store.reads.any fun r => r.userId == userId
            && r.notificationKey == key) = false := by simpa using ha
        rw [List.any_eq_false] at ha2
        have hno := ha2 a hmem
        intro hk
        apply hno
        have h1 : a.userId = userId := congrArg Prod.fst hk
        have h2 : a.notificationKey = key := congrArg Prod.snd hk
        rw [h1, h2]
        simp

/-- Closed witness for C9 on an empty store: the timestamp is stored and the
key row is inserted. -/
theorem C9_markRead_witness :
    ∃ store2, markRead { states := [], reads := [] } "u" (some 5) "k"
        = Except.ok store2
      ∧ lookupLastSeen store2.states "u" = some 5
      ∧ ({ userId := "u", notificationKey := "k" } : ReadRow) ∈ store2.reads := by
  obtain ⟨store2, h1, _, _, h4, _, h6, _⟩ :=
    C9_markRead_monotonic { states := [], reads := [] } "u" "k" 5 (by decide)
  exact ⟨store2, h1, h4 rfl, h6 (by decide)⟩

end ICentral
